import Mathlib

/-!
Verification of the Manta motor-control / data-acquisition system
(`data_collection_GUI.py` and `uart-data-collection.py`) against its
natural-language specification.  Numeric values are modelled as exact
rationals; Python exceptions are modelled with `Except`.
-/

deriving instance DecidableEq for Except

namespace Manta

/-- Ordered insertion, the auxiliary step of `pySorted`. -/
def insertSorted (a : ℚ) : List ℚ → List ℚ
  | [] => [a]
  | b :: l => if a ≤ b then a :: b :: l else b :: insertSorted a l

/-- Python's `sorted` on a list of numbers.  On rationals every correct
sort returns the same list, so insertion sort is an exact model. -/
def pySorted : List ℚ → List ℚ
  | [] => []
  | a :: l => insertSorted a (pySorted l)

/-- `median_filter(values, window_size)` from `data_collection_GUI.py`
(lines 383-387).  Python:
```
if len(values) < window_size:
    return values[-1] if values else None
return sorted(values[-window_size:])[window_size // 2]
```
`values[-w:]` with `w = 0` is the whole list (Python slice semantics);
indexing an empty sorted slice raises `IndexError`, modelled as `.error`. -/
def median_filter (values : List ℚ) (window_size : ℕ) : Except Unit (Option ℚ) :=
  if values.length < window_size then
    .ok values.getLast?
  else
    let slice := if window_size = 0 then values
                 else values.drop (values.length - window_size)
    let s := pySorted slice
    match s.get? (window_size / 2) with
    | some x => .ok (some x)
    | none => .error ()

/-- The spec's deterministic median (section 4.1 / claim C3, stated from the
spec's words, to be compared with `median_filter`): `None` on an empty
history, the single most recent sample when fewer than `W` entries are
available, otherwise the element at index `W/2` (integer division) of the
sorted slice of exactly the last `W` entries. -/
def medianSpec (values : List ℚ) (window_size : ℕ) : Option ℚ :=
  if values = [] then none
  else if values.length < window_size then values.getLast?
  else (pySorted (values.drop (values.length - window_size))).get? (window_size / 2)

/-- `ForceFrame` fields derived by `read_sensors` (both variants):
the raw readings plus the three optional derived values. -/
structure Forces where
  raw_readings : List (Option ℚ)
  thrust : Option ℚ
  lift : Option ℚ
  moment : Option ℚ
deriving DecidableEq, Repr

/-- Force derivation of `read_sensors` in `data_collection_GUI.py`
(lines 435-452): thrust/lift/moment stay `None` unless the reading list
has exactly three entries, none of them `None`; then
`thrust = raw[0]`, `lift = (raw[1]+raw[2])/2`,
`moment = (raw[1]-raw[2]) * LEVER_ARM_LENGTH`. -/
def read_sensors_forces (raw : List (Option ℚ)) (lever_arm_length : ℚ) : Forces :=
  match raw with
  | [some a, some b, some c] =>
    { raw_readings := raw
      thrust := some a
      lift := some ((b + c) / 2)
      moment := some ((b - c) * lever_arm_length) }
  | _ => { raw_readings := raw, thrust := none, lift := none, moment := none }

/-- Force derivation of `SensorNode.read_sensors` in
`uart-data-collection.py` (lines 47-64).  Identical to the GUI variant
except that there the moment is `(raw[1] + raw[2]) * lever_arm_length`
(sum, not difference). -/
def uart_read_sensors_forces (raw : List (Option ℚ)) (lever_arm_length : ℚ) : Forces :=
  match raw with
  | [some a, some b, some c] =>
    { raw_readings := raw
      thrust := some a
      lift := some ((b + c) / 2)
      moment := some ((b + c) * lever_arm_length) }
  | _ => { raw_readings := raw, thrust := none, lift := none, moment := none }

/-- Python's `lst[-w:]` slice: the whole list when `w = 0`, otherwise the
last `w` entries (all of them when `w ≥ len`). -/
def pyLastSlice (l : List ℚ) (w : ℕ) : List ℚ :=
  if w = 0 then l else l.drop (l.length - w)

/-- One channel of a `read_sensors` acquisition tick in
`data_collection_GUI.py` (lines 396-426).  A failed hardware read
(`reading = none`, the `except` branch) records `None` and leaves the
history untouched.  A successful read is sign-adjusted, appended to the
history, median-filtered (an `IndexError` from the filter would be caught
by the same `except`, recording `None`), and the history is trimmed once
it exceeds twice the window. -/
def channelStep (w : ℕ) (negate : Bool) (hist : List ℚ) (reading : Option ℚ) :
    List ℚ × Option ℚ :=
  match reading with
  | none => (hist, none)
  | some v0 =>
    let v := if negate then -v0 else v0
    let h := hist ++ [v]
    match median_filter h w with
    | .error _ => (h, none)
    | .ok filtered =>
      let h2 := if w * 2 < h.length then pyLastSlice h w else h
      (h2, filtered)

/-- One full acquisition tick of `read_sensors`: the three channels in
order (`loadcell2` and `loadcell3` are negated per the polarity table),
each with its own history; returns the new histories and the three
recorded readings. -/
def read_sensors_tick (w : ℕ) (h1 h2 h3 : List ℚ) (r1 r2 r3 : Option ℚ) :
    (List ℚ × List ℚ × List ℚ) × List (Option ℚ) :=
  let c1 := channelStep w false h1 r1
  let c2 := channelStep w true h2 r2
  let c3 := channelStep w true h3 r3
  ((c1.1, c2.1, c3.1), [c1.2, c2.2, c3.2])

/-- Recorded state of one motor (`motor_state` entries). -/
structure MotorSt where
  speed : ℕ
  direction : ℤ
deriving DecidableEq, Repr

/-- The `motor_state` dictionary: last commanded state of both motors. -/
structure MotorStates where
  motor1 : MotorSt
  motor2 : MotorSt
deriving DecidableEq, Repr

/-- The `motor_name` argument of `set_motor`. -/
inductive MotorSel
  | motor1
  | motor2
  | both
deriving DecidableEq, Repr

/-- GPIO levels on the two control pins of a TA8248K driver. -/
inductive PinLevel
  | high
  | low
deriving DecidableEq, Repr

/-- Digital (non-PWM) pin drive of `set_motor` (lines 480-490):
forward = (HIGH, LOW), reverse = (LOW, HIGH), stop/brake = (LOW, LOW). -/
def digitalPinLevels (direction : ℤ) : PinLevel × PinLevel :=
  if direction > 0 then (.high, .low)
  else if direction < 0 then (.low, .high)
  else (.low, .low)

/-- `set_motor(motor_name, direction, speed)` from `data_collection_GUI.py`
(lines 460-510), state-recording part: in digital mode (`use_pwm = false`)
the speed is forced to 100 before being recorded; the updated
`motor_state` is then published on the command queue
(`command_queue.put(motor_state.copy())`).  Returns
(new `motor_state`, published copy). -/
def set_motor (use_pwm : Bool) (st : MotorStates) (sel : MotorSel)
    (direction : ℤ) (speed : ℕ) : MotorStates × MotorStates :=
  let s := if !use_pwm then 100 else speed
  let upd : MotorSt := ⟨s, direction⟩
  let st' : MotorStates :=
    match sel with
    | .motor1 => { st with motor1 := upd }
    | .motor2 => { st with motor2 := upd }
    | .both => ⟨upd, upd⟩
  (st', st')

/-! ### Log-file model (claims C6, C7, C8) -/

/-- One line of a log file: the CSV header, a `#`-comment marker, or a
data row (with its serialized content). -/
inductive Line
  | header
  | marker
  | data (s : String)
deriving DecidableEq, Repr

/-- Contents of the log directory: each filename maps to the list of
lines of that file.  A file that does not exist and an existing empty
file behave identically under every operation the program performs
(`os.path.exists(f) and os.path.getsize(f) > 0` vs `log_file.tell() == 0`
vs `not os.path.exists(f) or os.path.getsize(f) == 0`), so both are
modelled as `[]`. -/
abbrev FS := String → List Line

/-- The file operations the program performs on log files. -/
inductive FileOp
  /-- `_init_log_file` (lines 258-273): if the file exists with size > 0
  do nothing, otherwise create/truncate it and write the header. -/
  | initLog
  /-- The logging process's first-write initialization (lines 678-682):
  if the file does not exist or is empty, create/truncate it and write
  the header. -/
  | logHeaderInit
  /-- Open for append; if `tell() == 0` write the header; then write a
  `#` marker (lines 550-557 and 780-786). -/
  | headerIfEmptyTell
  /-- Open for append and write a `#` marker (lines 216-217, 774-775). -/
  | appendMarker
  /-- Open for append and write one data row (lines 710-717). -/
  | appendData (s : String)
deriving DecidableEq, Repr

/-- Effect of one file operation on one file's contents. -/
def fileStep (c : List Line) : FileOp → List Line
  | .initLog => if c = [] then [.header] else c
  | .logHeaderInit => if c = [] then [.header] else c
  | .headerIfEmptyTell => (if c = [] then c ++ [.header] else c) ++ [.marker]
  | .appendMarker => c ++ [.marker]
  | .appendData s => c ++ [.data s]

/-- Whether an operation writes a header line to a file currently holding
`c`: only the three header-capable operations, and only on an
empty/non-existent file. -/
def writesHeader (c : List Line) : FileOp → Bool
  | .initLog => c = []
  | .logHeaderInit => c = []
  | .headerIfEmptyTell => c = []
  | .appendMarker => false
  | .appendData _ => false

/-- Apply one (filename, operation) pair to the log directory. -/
def applyOp (fs : FS) (t : String × FileOp) : FS :=
  fun f => if f = t.1 then fileStep (fs f) t.2 else fs f

/-- Run a sequence of (filename, operation) pairs. -/
def runOps (fs : FS) : List (String × FileOp) → FS
  | [] => fs
  | t :: rest => runOps (applyOp fs t) rest

/-- Number of header lines actually written to file `f` during a run. -/
def headerWrites (fs : FS) : List (String × FileOp) → String → ℕ
  | [], _ => 0
  | t :: rest, f =>
    (if t.1 = f ∧ writesHeader (fs f) t.2 then 1 else 0)
      + headerWrites (applyOp fs t) rest f

/-- Number of header lines in a file's contents. -/
def headerCount (c : List Line) : ℕ :=
  c.countP (fun l => l = Line.header)

/-- The empty log directory (no files yet). -/
def emptyFS : FS := fun _ => []

/-- One sensor frame as queued by the acquisition loop: timestamp plus
the derived `Forces`. -/
structure SensorFrame where
  timestamp : String
  forces : Forces
deriving DecidableEq, Repr

/-- Cycle information messages consumed by the logging loop
(`clock_queue` entries). -/
structure CycleInfo where
  cycle_number : ℕ
  cycle_position : ℚ
  pattern_active : Bool
deriving DecidableEq, Repr

/-- Zero-padded decimal digit: the character for `m % 10`. -/
def digit (m : ℕ) : Char :=
  match m % 10 with
  | 0 => '0' | 1 => '1' | 2 => '2' | 3 => '3' | 4 => '4'
  | 5 => '5' | 6 => '6' | 7 => '7' | 8 => '8' | _ => '9'

/-- Round to the nearest integer, ties to even — the rounding Python's
fixed-point formatting applies. -/
def roundHalfEven (x : ℚ) : ℤ :=
  let f := ⌊x⌋
  let r := x - f
  if r < 1/2 then f
  else if 1/2 < r then f + 1
  else if f % 2 = 0 then f else f + 1

/-- Python's `f"{x:.4f}"`: the value rounded to 4 decimal places and
rendered as optional sign, integer part, `.`, and exactly 4 fraction
digits. -/
def fmt4 (q : ℚ) : String :=
  let n : ℤ := roundHalfEven (q * 10000)
  let a := n.natAbs
  String.mk ((if n < 0 then ['-'] else []) ++ (toString (a / 10000)).data
    ++ '.' :: [digit (a / 1000), digit (a / 100), digit (a / 10), digit a])

/-- Number of characters after the last `.` of a string. -/
def fracDigitsAfterDot (s : String) : ℕ :=
  (s.data.reverse.takeWhile (fun c => c ≠ '.')).length

/-- Serialization of an optional value: the rendered number, or the
literal token `NA` when missing.  `g` is Python's float rendering,
abstracted as a parameter. -/
def optStr (g : ℚ → String) : Option ℚ → String
  | none => "NA"
  | some q => g q

/-- Serialization of `raw_readings[i]`:
`raw_readings[i] if len(raw_readings) > i and raw_readings[i] is not None
else "NA"` (lines 694-696). -/
def rawField (g : ℚ → String) (raw : List (Option ℚ)) (i : ℕ) : String :=
  match raw.get? i with
  | some (some q) => g q
  | _ => "NA"

/-- The log row built by the logging process (lines 708-716), following
the f-string
`f"{timestamp},{thrust},{lift},{moment},{raw1},{raw2},{raw3},
{motor1_speed},{motor1_dir},{motor2_speed},{motor2_dir},
{cycle_number},{cycle_position:.4f},{pattern_active}"`. -/
def logEntry (g : ℚ → String) (sd : SensorFrame) (mc : MotorStates)
    (ci : CycleInfo) : String :=
  sd.timestamp ++ "," ++ optStr g sd.forces.thrust ++ ","
    ++ optStr g sd.forces.lift ++ "," ++ optStr g sd.forces.moment ++ ","
    ++ rawField g sd.forces.raw_readings 0 ++ ","
    ++ rawField g sd.forces.raw_readings 1 ++ ","
    ++ rawField g sd.forces.raw_readings 2 ++ ","
    ++ toString mc.motor1.speed ++ "," ++ toString mc.motor1.direction ++ ","
    ++ toString mc.motor2.speed ++ "," ++ toString mc.motor2.direction ++ ","
    ++ toString ci.cycle_number ++ "," ++ fmt4 ci.cycle_position ++ ","
    ++ (if ci.pattern_active then "1" else "0")

/-- The spec's column schema (section 6 / claim C8, stated from the
spec's words, to be compared with `logEntry`): the fourteen fields
`timestamp, thrust, lift, moment, raw1, raw2, raw3, motor1_speed,
motor1_dir, motor2_speed, motor2_dir, cycle_number, cycle_position,
pattern_active` in order. -/
def schemaFields (g : ℚ → String) (sd : SensorFrame) (mc : MotorStates)
    (ci : CycleInfo) : List String :=
  [sd.timestamp,
   optStr g sd.forces.thrust, optStr g sd.forces.lift,
   optStr g sd.forces.moment,
   rawField g sd.forces.raw_readings 0, rawField g sd.forces.raw_readings 1,
   rawField g sd.forces.raw_readings 2,
   toString mc.motor1.speed, toString mc.motor1.direction,
   toString mc.motor2.speed, toString mc.motor2.direction,
   toString ci.cycle_number, fmt4 ci.cycle_position,
   if ci.pattern_active then "1" else "0"]

/-- Comma-separated join of a field list. -/
def joinComma : List String → String
  | [] => ""
  | [x] => x
  | x :: xs => x ++ "," ++ joinComma xs

/-- One message consumed by the logging process's main loop
(lines 652-726): a cycle-info update from `clock_queue`, a motor-command
update from `command_queue`, or a sensor frame from `sensor_queue`
together with the value of `logging_active` at the moment the frame is
handled. -/
inductive LoopEvent
  | clock (ci : CycleInfo)
  | command (mc : MotorStates)
  | frame (sd : SensorFrame) (enabled : Bool)

/-- State of the logging process: latest motor commands, latest cycle
info, the data rows written so far (across all files), and the number of
frames dequeued so far. -/
structure LoopState where
  motor_commands : MotorStates
  cycle_info : CycleInfo
  rows : List String
  consumed : ℕ

/-- One iteration of the logging loop body: cycle/command messages update
the merge buffer; a sensor frame is always dequeued, and a data row is
written for it exactly when `logging_active` was set. -/
def loopStep (g : ℚ → String) (st : LoopState) : LoopEvent → LoopState
  | .clock ci => { st with cycle_info := ci }
  | .command mc => { st with motor_commands := mc }
  | .frame sd enabled =>
    if enabled then
      { st with
        consumed := st.consumed + 1
        rows := st.rows ++ [logEntry g sd st.motor_commands st.cycle_info] }
    else { st with consumed := st.consumed + 1 }

/-- Run the logging loop over a stream of messages. -/
def runLoop (g : ℚ → String) (st : LoopState) (evs : List LoopEvent) : LoopState :=
  evs.foldl (loopStep g) st

/-- Whether a loop message is a sensor frame. -/
def isFrameEv : LoopEvent → Bool
  | .frame _ _ => true
  | _ => false

/-- Whether a loop message is a sensor frame arriving while logging is
enabled. -/
def isEnabledFrameEv : LoopEvent → Bool
  | .frame _ true => true
  | _ => false

/-- Initial state of the logging process (lines 630-650): motors at rest,
cycle 0 at position 0 inactive, nothing written, nothing consumed. -/
def initLoopState : LoopState :=
  { motor_commands := ⟨⟨0, 0⟩, ⟨0, 0⟩⟩
    cycle_info := ⟨0, 0, false⟩
    rows := []
    consumed := 0 }

/-! ### Actuation-sequencer model (claims C1, C2)

`run_wave_pattern` (lines 758-1003) is a sequential procedure with sleeps;
at every wait boundary it re-reads `wave_running`.  The model records the
observable effects as a trace of events.  `run i` is the value of
`wave_running` at the i-th flag read (reads are numbered in program
order), which captures every cancellation schedule.  A Python exception
can interrupt the thread between any two events; it is modelled by
truncating the try-body trace at an arbitrary position `k` and appending
the `except`/`finally` effects, a superset of the real behaviours. -/

/-- Observable events of `run_wave_pattern` and its wave thread. -/
inductive Ev
  /-- A `set_motor(sel, direction, speed)` call (its arguments). -/
  | cmd (sel : MotorSel) (direction : ℤ) (speed : ℕ)
  /-- A `clock_queue.put({'cycle_number','cycle_position','pattern_active'})`. -/
  | pub (num : ℕ) (pos : ℚ) (active : Bool)
  /-- `cycle_info['cycle_number'].value = n`. -/
  | memNum (n : ℕ)
  /-- `cycle_info['cycle_position'].value = p`. -/
  | memPos (p : ℚ)
  /-- `cycle_info['pattern_active'].value = b`. -/
  | memActive (b : Bool)
  /-- `logging_active.value = b`. -/
  | logEnable (b : Bool)
  /-- `wave_running.value = b`. -/
  | waveFlag (b : Bool)
deriving DecidableEq, Repr

/-- Wave-pattern parameters of one `run_wave_pattern(num_cycles)` call:
the `self.period/phase/latency/reverse/motor_speed` attributes, fixed for
the run. -/
structure WaveCfg where
  num_cycles : ℕ
  period : ℚ
  phase : ℚ
  latency : ℚ
  reverse : Bool
  speed : ℕ

/-- `phase_fraction = self.phase / self.period` (line 834). -/
def phaseFrac (cfg : WaveCfg) : ℚ := cfg.phase / cfg.period

/-- `latency_fraction = self.latency / self.period` (line 871). -/
def latencyFrac (cfg : WaveCfg) : ℚ := cfg.latency / cfg.period

/-- `update_cycle_position(position, cycle_number, active)`
(lines 744-756): writes the three shared-memory cells, then publishes the
triple on `clock_queue`. -/
def update_cycle_position (pos : ℚ) (num : ℕ) (active : Bool) : List Ev :=
  [.memPos pos, .memNum num, .memActive active, .pub num pos active]

/-- `stop_all_motors()` = `set_motor("both", 0, 0)` (lines 740-742). -/
def stopAllEvs : List Ev := [.cmd .both 0 0]

/-- The main cycle loop (lines 844-902), iterating over the remaining
cycle count.  Arguments: remaining iterations, next flag-read index,
current direction, completed-cycle counter `c` (the Python `cycle`).
Each `if run _` mirrors an `if not self.wave_running.value: break`.
Returns (events, next flag-read index, direction on exit). -/
def cycleLoop (cfg : WaveCfg) (run : ℕ → Bool) :
    ℕ → ℕ → ℤ → ℕ → List Ev × ℕ × ℤ
  | 0, i, dir, _ => ([], i, dir)
  | rem + 1, i, dir, c =>
    if run i then
      let dir' := -dir
      let e1 := [Ev.memNum (c+1), Ev.cmd .motor1 0 0]
        ++ update_cycle_position (1/2) (c+1) true
      if run (i+1) then
        let e2 := e1 ++ [Ev.cmd .motor1 dir' cfg.speed]
          ++ update_cycle_position (1/2 + latencyFrac cfg) (c+1) true
        if run (i+2) then
          let e3 := e2 ++ [Ev.cmd .motor2 0 0]
            ++ update_cycle_position
                (1/2 + latencyFrac cfg + phaseFrac cfg) (c+1) true
          if run (i+3) then
            let e4 := e3 ++ [Ev.cmd .motor2 dir' cfg.speed]
              ++ update_cycle_position
                  (1/2 + 2 * latencyFrac cfg + phaseFrac cfg) (c+1) true
            if run (i+4) then
              let e5 := e4 ++ update_cycle_position 1 (c+1) true
              let r := cycleLoop cfg run rem (i+5) dir' (c+1)
              (e5 ++ r.1, r.2.1, r.2.2)
            else (e4, i+5, dir')
          else (e3, i+4, dir')
        else (e2, i+3, dir')
      else (e1, i+2, dir')
    else ([], i+1, dir)

/-- The final half cycle (lines 904-960).  Returns (events, early-return
flag): the three cancellation checks issue `stop_all_motors()` and
`return` (skipping the rest of the try block). -/
def finalHalf (cfg : WaveCfg) (run : ℕ → Bool) (i : ℕ) (dir : ℤ) (n : ℕ) :
    List Ev × Bool :=
  let dir' := -dir
  let e1 := [Ev.memNum (n+1), Ev.cmd .motor1 0 0]
    ++ update_cycle_position 0 (n+1) true
  if run i then
    let e2 := e1 ++ [Ev.cmd .motor1 dir' cfg.speed]
      ++ update_cycle_position (latencyFrac cfg) (n+1) true
    if run (i+1) then
      let e3 := e2 ++ [Ev.cmd .motor2 0 0]
        ++ update_cycle_position (latencyFrac cfg + phaseFrac cfg) (n+1) true
      if run (i+2) then
        let e4 := e3 ++ [Ev.cmd .motor2 dir' cfg.speed]
          ++ update_cycle_position
              (latencyFrac cfg + phaseFrac cfg + latencyFrac cfg) (n+1) true
        (e4 ++ update_cycle_position (1/2) (n+1) true, false)
      else (e3 ++ stopAllEvs, true)
    else (e2 ++ stopAllEvs, true)
  else (e1 ++ stopAllEvs, true)

/-- The try block of the wave thread (lines 803-977 up to the epilogue):
initial half cycle, main loop, optional final half cycle.  Returns
(events, early-return flag). -/
def tryBody (cfg : WaveCfg) (run : ℕ → Bool) : List Ev × Bool :=
  let dir0 : ℤ := if cfg.reverse then -1 else 1
  let e0 := [Ev.cmd .motor1 dir0 cfg.speed] ++ update_cycle_position 0 0 true
  if run 0 then
    let e1 := e0 ++ [Ev.cmd .motor2 dir0 cfg.speed]
      ++ update_cycle_position (phaseFrac cfg) 0 true
    if run 1 then
      let r := cycleLoop cfg run cfg.num_cycles 2 dir0 0
      let e2 := e1 ++ r.1
      if run r.2.1 then
        let f := finalHalf cfg run (r.2.1 + 1) r.2.2 cfg.num_cycles
        (e2 ++ f.1, f.2)
      else (e2, false)
    else (e1 ++ stopAllEvs, true)
  else (e0 ++ stopAllEvs, true)

/-- Setup performed by `run_wave_pattern` before starting the thread
(lines 768-799): raise the run and logging flags, reset the shared cycle
cells and publish the initial cycle state. -/
def setupEvs : List Ev :=
  [.waveFlag true, .logEnable true, .memNum 0, .memPos 0, .memActive true,
   .pub 0 0 true]

/-- Current value of `cycle_info['cycle_number']` after a list of events
(initial value 0, set during setup). -/
def lastMemNum (evs : List Ev) : ℕ :=
  evs.foldl (fun a e => match e with | .memNum n => n | _ => a) 0

/-- Current value of `cycle_info['cycle_position']` after a list of
events (initial value 0, set during setup). -/
def lastMemPos (evs : List Ev) : ℚ :=
  evs.foldl (fun a e => match e with | .memPos p => p | _ => a) 0

/-- End of the try block after a completed (not early-returned) body
(lines 962-974): stop both motors, clear `pattern_active`, publish the
current cycle cells with `active = false`, disable logging.  `pre` is the
whole trace so far, from which the published cell values are read. -/
def epilogueEvs (pre : List Ev) : List Ev :=
  stopAllEvs
    ++ [.memActive false, .pub (lastMemNum pre) (lastMemPos pre) false,
        .logEnable false]

/-- The `finally` block (lines 987-997) with the published cell values
`n`, `p`: clear the run flag and `pattern_active`, publish with
`active = false`, stop both motors, disable logging. -/
def finallyEvsNP (n : ℕ) (p : ℚ) : List Ev :=
  [.waveFlag false, .memActive false, .pub n p false]
    ++ stopAllEvs ++ [.logEnable false]

/-- The wave thread's events when no exception interrupts it: the try
body, followed by the epilogue unless the body returned early. -/
def threadEvsNoExn (cfg : WaveCfg) (run : ℕ → Bool) : List Ev :=
  let b := tryBody cfg run
  if b.2 then b.1 else b.1 ++ epilogueEvs (setupEvs ++ b.1)

/-- One full execution of `run_wave_pattern`: setup, then the thread.
`exn = some k` interrupts the thread after its k-th event, running the
`except` handler (which touches `logging_active` only when a callback was
supplied, line 979-985) and then the `finally` block; `exn = none` is an
exception-free execution ending in the `finally` block. -/
def runWaveTrace (cfg : WaveCfg) (run : ℕ → Bool) (exn : Option ℕ)
    (hasCb : Bool) : List Ev :=
  let t := threadEvsNoExn cfg run
  match exn with
  | none =>
    let pre := setupEvs ++ t
    pre ++ finallyEvsNP (lastMemNum pre) (lastMemPos pre)
  | some k =>
    let pre := setupEvs ++ t.take k
    (pre ++ (if hasCb then [Ev.logEnable false] else []))
      ++ finallyEvsNP (lastMemNum pre) (lastMemPos pre)

/-- The last `set_motor` call of a trace, with its arguments. -/
def lastCmd (evs : List Ev) : Option (MotorSel × ℤ × ℕ) :=
  evs.foldl (fun a e => match e with | .cmd s d sp => some (s, d, sp) | _ => a)
    none

/-- The last cycle-state publication of a trace. -/
def lastPub (evs : List Ev) : Option (ℕ × ℚ × Bool) :=
  evs.foldl (fun a e => match e with | .pub n p b => some (n, p, b) | _ => a)
    none

/-- All cycle-state publications of a trace, in order. -/
def pubsOf (evs : List Ev) : List (ℕ × ℚ × Bool) :=
  evs.filterMap (fun e => match e with | .pub n p b => some (n, p, b) | _ => none)

/-- Number of true-to-false transitions in the published `active` flag. -/
def transitionsToFalse : List (ℕ × ℚ × Bool) → ℕ
  | x :: y :: rest =>
    (if x.2.2 = true ∧ y.2.2 = false then 1 else 0)
      + transitionsToFalse (y :: rest)
  | _ => 0

/-- An event that is not a publication with `active = false`. -/
def pubActiveTrue : Ev → Bool
  | .pub _ _ a => a
  | _ => true

/-- An event that is not a `set_motor` call. -/
def isCmd : Ev → Bool
  | .cmd _ _ _ => true
  | _ => false

/-- An event that is either not a `set_motor` call or the stop command
`set_motor("both", 0, 0)`. -/
def isStopOrNonCmd : Ev → Bool
  | .cmd s d sp => decide (s = .both) && decide (d = 0) && decide (sp = 0)
  | _ => true

/-- An event allowed in the shutdown tail of a trace: any non-command
whose publications are inactive, or the stop command. -/
def tailOk : Ev → Bool
  | .cmd s d sp => decide (s = .both) && decide (d = 0) && decide (sp = 0)
  | .pub _ _ a => !a
  | _ => true

/-- After the first inactive publication, no `set_motor` call at all
occurs (the original claim's reading of "active transitions to false
after the last actuator command"). -/
def noCmdAfterFirstFalse : List Ev → Bool
  | [] => true
  | e :: rest =>
    if pubActiveTrue e then noCmdAfterFirstFalse rest
    else rest.all (fun x => !isCmd x)

/-- After the first inactive publication, every `set_motor` call is the
stop command `("both", 0, 0)`. -/
def stopOnlyAfterFirstFalse : List Ev → Bool
  | [] => true
  | e :: rest =>
    if pubActiveTrue e then stopOnlyAfterFirstFalse rest
    else rest.all isStopOrNonCmd

/-- Adjacent-pair property asserted by claim C2 on the published stream:
within a cycle the position is non-decreasing, and at a cycle-number
change the new position is 0. -/
def stepClaim (x y : ℕ × ℚ × Bool) : Prop :=
  (x.1 = y.1 → x.2.1 ≤ y.2.1) ∧ (x.1 ≠ y.1 → y.2.1 = 0)

/-- Adjacent-pair property the code actually guarantees on the active
publications: within a cycle the position is non-decreasing, and at a
cycle-number change the new position is 1/2 (main-loop increments, cycle
numbers 1..num_cycles) or 0 (the final half-cycle increment, cycle number
num_cycles+1). -/
def stepOk (cfg : WaveCfg) (x y : ℕ × ℚ × Bool) : Prop :=
  (x.1 = y.1 → x.2.1 ≤ y.2.1)
  ∧ (x.1 ≠ y.1 →
      (y.2.1 = 1/2 ∧ 1 ≤ y.1 ∧ y.1 ≤ cfg.num_cycles)
      ∨ (y.2.1 = 0 ∧ y.1 = cfg.num_cycles + 1))

/-- The publications of `cycleLoop` when never cancelled, starting after
completed cycle `c`: closed form used by the normal-run lemmas. -/
def cyclePubsFrom (cfg : WaveCfg) : ℕ → ℕ → List (ℕ × ℚ × Bool)
  | 0, _ => []
  | rem + 1, c =>
    [(c+1, 1/2, true), (c+1, 1/2 + latencyFrac cfg, true),
     (c+1, 1/2 + latencyFrac cfg + phaseFrac cfg, true),
     (c+1, 1/2 + 2 * latencyFrac cfg + phaseFrac cfg, true),
     (c+1, 1, true)]
      ++ cyclePubsFrom cfg rem (c+1)

/-- Direction after a number of reversals. -/
def dirAfter : ℕ → ℤ → ℤ
  | 0, d => d
  | rem + 1, d => dirAfter rem (-d)

/-- The events of one uncancelled main-loop iteration for cycle `c+1`
with (already reversed) direction `dir'`. -/
def cycleBlock (cfg : WaveCfg) (c : ℕ) (dir' : ℤ) : List Ev :=
  [Ev.memNum (c+1), Ev.cmd .motor1 0 0]
    ++ update_cycle_position (1/2) (c+1) true
    ++ [Ev.cmd .motor1 dir' cfg.speed]
    ++ update_cycle_position (1/2 + latencyFrac cfg) (c+1) true
    ++ [Ev.cmd .motor2 0 0]
    ++ update_cycle_position (1/2 + latencyFrac cfg + phaseFrac cfg) (c+1) true
    ++ [Ev.cmd .motor2 dir' cfg.speed]
    ++ update_cycle_position (1/2 + 2 * latencyFrac cfg + phaseFrac cfg) (c+1) true
    ++ update_cycle_position 1 (c+1) true

/-- The events of the uncancelled main loop, closed form. -/
def cycleEvsFrom (cfg : WaveCfg) : ℕ → ℕ → ℤ → List Ev
  | 0, _, _ => []
  | rem + 1, c, dir => cycleBlock cfg c (-dir) ++ cycleEvsFrom cfg rem (c+1) (-dir)

/-- The events of the uncancelled initial half cycle with starting
direction `dir0`. -/
def preBlock (cfg : WaveCfg) (dir0 : ℤ) : List Ev :=
  [Ev.cmd .motor1 dir0 cfg.speed] ++ update_cycle_position 0 0 true
    ++ [Ev.cmd .motor2 dir0 cfg.speed]
    ++ update_cycle_position (phaseFrac cfg) 0 true

/-- The events of the uncancelled final half cycle entered with
direction `dir` after `n` cycles. -/
def finalBlock (cfg : WaveCfg) (dir : ℤ) (n : ℕ) : List Ev :=
  let dir' := -dir
  [Ev.memNum (n+1), Ev.cmd .motor1 0 0]
    ++ update_cycle_position 0 (n+1) true
    ++ [Ev.cmd .motor1 dir' cfg.speed]
    ++ update_cycle_position (latencyFrac cfg) (n+1) true
    ++ [Ev.cmd .motor2 0 0]
    ++ update_cycle_position (latencyFrac cfg + phaseFrac cfg) (n+1) true
    ++ [Ev.cmd .motor2 dir' cfg.speed]
    ++ update_cycle_position
        (latencyFrac cfg + phaseFrac cfg + latencyFrac cfg) (n+1) true
    ++ update_cycle_position (1/2) (n+1) true

/-- The publications of the uncancelled final half cycle. -/
def finalPubs (cfg : WaveCfg) (n : ℕ) : List (ℕ × ℚ × Bool) :=
  [(n+1, 0, true), (n+1, latencyFrac cfg, true),
   (n+1, latencyFrac cfg + phaseFrac cfg, true),
   (n+1, latencyFrac cfg + phaseFrac cfg + latencyFrac cfg, true),
   (n+1, 1/2, true)]

/-- The publications made while `active = true`. -/
def activePubsOf (evs : List Ev) : List (ℕ × ℚ × Bool) :=
  (pubsOf evs).filter (fun x => x.2.2)

/-- The try-body events of an uncancelled, exception-free run. -/
def normalBody (cfg : WaveCfg) : List Ev :=
  preBlock cfg (if cfg.reverse then -1 else 1)
    ++ cycleEvsFrom cfg cfg.num_cycles 0 (if cfg.reverse then -1 else 1)
    ++ finalBlock cfg
        (dirAfter cfg.num_cycles (if cfg.reverse then -1 else 1))
        cfg.num_cycles

/-- Everything before the `finally` block in an uncancelled,
exception-free run: setup, try body, epilogue. -/
def normalPre (cfg : WaveCfg) : List Ev :=
  setupEvs ++ (normalBody cfg ++ epilogueEvs (setupEvs ++ normalBody cfg))

/-! ### Supporting lemmas -/

theorem length_insertSorted (a : ℚ) (l : List ℚ) :
    (insertSorted a l).length = l.length + 1 := by
  induction l with
  | nil => rfl
  | cons b l ih =>
    by_cases h : a ≤ b <;> simp [insertSorted, h, ih]

theorem length_pySorted (l : List ℚ) : (pySorted l).length = l.length := by
  induction l with
  | nil => rfl
  | cons a l ih => simp [pySorted, length_insertSorted, ih]

theorem fileStep_ne_nil (c : List Line) (op : FileOp) : fileStep c op ≠ [] := by
  cases op with
  | initLog => simp only [fileStep]; split <;> simp_all
  | logHeaderInit => simp only [fileStep]; split <;> simp_all
  | headerIfEmptyTell => simp [fileStep]
  | appendMarker => simp [fileStep]
  | appendData s => simp [fileStep]

theorem eq_nil_of_writesHeader (c : List Line) (op : FileOp)
    (h : writesHeader c op = true) : c = [] := by
  cases op <;> simp [writesHeader] at h <;> exact h

theorem headerWrites_of_ne_nil (ops : List (String × FileOp)) (fs : FS)
    (f : String) (h : fs f ≠ []) : headerWrites fs ops f = 0 := by
  induction ops generalizing fs with
  | nil => rfl
  | cons t rest ih =>
    unfold headerWrites
    rw [if_neg (fun hc => h (eq_nil_of_writesHeader _ _ hc.2))]
    rw [ih (applyOp fs t)]
    unfold applyOp
    split
    · exact fileStep_ne_nil _ _
    · exact h

theorem headerWrites_le_one (ops : List (String × FileOp)) (fs : FS)
    (f : String) : headerWrites fs ops f ≤ 1 := by
  induction ops generalizing fs with
  | nil => simp [headerWrites]
  | cons t rest ih =>
    unfold headerWrites
    by_cases hc : t.1 = f ∧ writesHeader (fs f) t.2 = true
    · rw [if_pos hc]
      have hne : (applyOp fs t) f ≠ [] := by
        unfold applyOp
        rw [if_pos hc.1.symm]
        exact fileStep_ne_nil _ _
      rw [headerWrites_of_ne_nil rest _ f hne]
    · rw [if_neg hc]
      simpa using ih (applyOp fs t)

theorem headerCount_fileStep (c : List Line) (op : FileOp)
    (h : headerCount c ≤ 1) : headerCount (fileStep c op) ≤ 1 := by
  cases op with
  | initLog =>
    simp only [fileStep]
    split
    · decide
    · exact h
  | logHeaderInit =>
    simp only [fileStep]
    split
    · decide
    · exact h
  | headerIfEmptyTell =>
    simp only [fileStep]
    split
    · rename_i hc
      subst hc
      decide
    · unfold headerCount at *
      simpa [List.countP_append] using h
  | appendMarker =>
    simp only [fileStep]
    unfold headerCount at *
    simpa [List.countP_append] using h
  | appendData s =>
    simp only [fileStep]
    unfold headerCount at *
    simpa [List.countP_append] using h

theorem headerCount_runOps (ops : List (String × FileOp)) (fs : FS)
    (h : ∀ g, headerCount (fs g) ≤ 1) (f : String) :
    headerCount (runOps fs ops f) ≤ 1 := by
  induction ops generalizing fs with
  | nil => exact h f
  | cons t rest ih =>
    unfold runOps
    refine ih (applyOp fs t) (fun g => ?_)
    unfold applyOp
    split
    · exact headerCount_fileStep _ _ (h g)
    · exact h g

theorem runLoop_counts (g : ℚ → String) (evs : List LoopEvent) (st : LoopState) :
    (runLoop g st evs).consumed = st.consumed + evs.countP isFrameEv
    ∧ (runLoop g st evs).rows.length = st.rows.length + evs.countP isEnabledFrameEv := by
  induction evs generalizing st with
  | nil => simp [runLoop]
  | cons e rest ih =>
    have hstep : runLoop g st (e :: rest) = runLoop g (loopStep g st e) rest := rfl
    rw [hstep]
    constructor
    · rw [(ih (loopStep g st e)).1]
      cases e with
      | clock ci => simp [loopStep, List.countP_cons, isFrameEv]
      | command mc => simp [loopStep, List.countP_cons, isFrameEv]
      | frame sd enabled =>
        cases enabled <;> simp [loopStep, List.countP_cons, isFrameEv] <;> omega
    · rw [(ih (loopStep g st e)).2]
      cases e with
      | clock ci => simp [loopStep, List.countP_cons, isEnabledFrameEv]
      | command mc => simp [loopStep, List.countP_cons, isEnabledFrameEv]
      | frame sd enabled =>
        cases enabled <;> (simp [loopStep, List.countP_cons, isEnabledFrameEv]; try omega)

theorem digit_ne_dot (m : ℕ) : (decide (digit m ≠ '.')) = true := by
  unfold digit
  split <;> rfl

theorem takeWhile_all_then_stop {α : Type} (p : α → Bool) (l1 : List α)
    (c : α) (l2 : List α) (h1 : ∀ x ∈ l1, p x = true) (hc : p c = false) :
    (l1 ++ c :: l2).takeWhile p = l1 := by
  induction l1 with
  | nil => simp [List.takeWhile, hc]
  | cons a l ih =>
    have ha := h1 a (List.mem_cons_self a l)
    simp only [List.cons_append, List.takeWhile_cons, ha, if_true]
    rw [ih (fun x hx => h1 x (List.mem_cons_of_mem _ hx))]

theorem fracDigits_of_shape (pre : List Char) (d1 d2 d3 d4 : ℕ) :
    fracDigitsAfterDot
      (String.mk (pre ++ '.' :: [digit d1, digit d2, digit d3, digit d4])) = 4 := by
  unfold fracDigitsAfterDot
  have hdata : (String.mk
      (pre ++ '.' :: [digit d1, digit d2, digit d3, digit d4])).data
      = pre ++ '.' :: [digit d1, digit d2, digit d3, digit d4] := rfl
  rw [hdata, List.reverse_append, List.reverse_cons, List.append_assoc,
    List.singleton_append]
  rw [takeWhile_all_then_stop (fun c => c ≠ '.') _ '.' pre.reverse ?h1 ?hc]
  · simp
  case h1 =>
    intro x hx
    rw [List.mem_reverse] at hx
    simp only [List.mem_cons, List.not_mem_nil, or_false] at hx
    rcases hx with rfl | rfl | rfl | rfl <;> exact digit_ne_dot _
  case hc => rfl

theorem fracDigits_fmt4 (q : ℚ) : fracDigitsAfterDot (fmt4 q) = 4 := by
  unfold fmt4
  exact fracDigits_of_shape _ _ _ _ _

theorem rawField_eq_NA (g : ℚ → String) (raw : List (Option ℚ)) (i : ℕ)
    (hj : (raw.get? i).join = none) : rawField g raw i = "NA" := by
  unfold rawField
  split
  · rename_i q heq
    rw [heq] at hj
    simp at hj
  · rfl

theorem lastCmd_finallyNP (xs : List Ev) (n : ℕ) (p : ℚ) :
    lastCmd (xs ++ finallyEvsNP n p) = some (.both, 0, 0) := by
  unfold lastCmd finallyEvsNP stopAllEvs
  rw [List.foldl_append]
  rfl

theorem lastPub_finallyNP (xs : List Ev) (n : ℕ) (p : ℚ) :
    lastPub (xs ++ finallyEvsNP n p) = some (n, p, false) := by
  unfold lastPub finallyEvsNP stopAllEvs
  rw [List.foldl_append]
  rfl

theorem cycleLoop_true (cfg : WaveCfg) :
    ∀ rem i dir c, cycleLoop cfg (fun _ => true) rem i dir c
      = (cycleEvsFrom cfg rem c dir, i + 5 * rem, dirAfter rem dir) := by
  intro rem
  induction rem with
  | zero =>
    intro i dir c
    simp [cycleLoop, cycleEvsFrom, dirAfter]
  | succ rem ih =>
    intro i dir c
    simp only [cycleLoop, if_true, ih]
    refine Prod.ext ?_ (Prod.ext ?_ ?_)
    · show _ ++ cycleEvsFrom cfg rem (c+1) (-dir) = cycleEvsFrom cfg (rem+1) c dir
      rfl
    · show i + 5 + 5 * rem = i + 5 * (rem + 1)
      omega
    · rfl

theorem finalHalf_true (cfg : WaveCfg) (i : ℕ) (dir : ℤ) (n : ℕ) :
    finalHalf cfg (fun _ => true) i dir n = (finalBlock cfg dir n, false) := by
  simp [finalHalf, finalBlock]

theorem tryBody_true (cfg : WaveCfg) :
    tryBody cfg (fun _ => true)
      = (preBlock cfg (if cfg.reverse then -1 else 1)
          ++ cycleEvsFrom cfg cfg.num_cycles 0 (if cfg.reverse then -1 else 1)
          ++ finalBlock cfg
              (dirAfter cfg.num_cycles (if cfg.reverse then -1 else 1))
              cfg.num_cycles,
         false) := by
  simp only [tryBody, if_true, cycleLoop_true, finalHalf_true]
  rfl

theorem pubsOf_append (A B : List Ev) :
    pubsOf (A ++ B) = pubsOf A ++ pubsOf B := by
  unfold pubsOf
  rw [List.filterMap_append]

theorem pubsOf_cycleEvsFrom (cfg : WaveCfg) :
    ∀ rem c dir, pubsOf (cycleEvsFrom cfg rem c dir) = cyclePubsFrom cfg rem c := by
  intro rem
  induction rem with
  | zero => intro c dir; rfl
  | succ rem ih =>
    intro c dir
    show pubsOf (cycleBlock cfg c (-dir) ++ cycleEvsFrom cfg rem (c+1) (-dir)) = _
    rw [pubsOf_append, ih]
    rfl

theorem pubsOf_setup : pubsOf setupEvs = [(0, 0, true)] := rfl

theorem pubsOf_preBlock (cfg : WaveCfg) (d : ℤ) :
    pubsOf (preBlock cfg d) = [(0, 0, true), (0, phaseFrac cfg, true)] := rfl

theorem pubsOf_finalBlock (cfg : WaveCfg) (d : ℤ) (n : ℕ) :
    pubsOf (finalBlock cfg d n) = finalPubs cfg n := rfl

theorem pubsOf_epilogue (X : List Ev) :
    pubsOf (epilogueEvs X) = [(lastMemNum X, lastMemPos X, false)] := rfl

theorem pubsOf_finallyNP (n : ℕ) (p : ℚ) :
    pubsOf (finallyEvsNP n p) = [(n, p, false)] := rfl

theorem trace_true_eq (cfg : WaveCfg) (cb : Bool) :
    runWaveTrace cfg (fun _ => true) none cb
      = normalPre cfg
        ++ finallyEvsNP (lastMemNum (normalPre cfg))
            (lastMemPos (normalPre cfg)) := by
  simp only [runWaveTrace, threadEvsNoExn, tryBody_true, Bool.false_eq_true,
    if_false, normalPre, normalBody]

theorem pubs_trace_true (cfg : WaveCfg) (cb : Bool) :
    pubsOf (runWaveTrace cfg (fun _ => true) none cb)
      = [(0, 0, true), (0, 0, true), (0, phaseFrac cfg, true)]
        ++ cyclePubsFrom cfg cfg.num_cycles 0
        ++ finalPubs cfg cfg.num_cycles
        ++ [(lastMemNum (setupEvs ++ normalBody cfg),
             lastMemPos (setupEvs ++ normalBody cfg), false),
            (lastMemNum (normalPre cfg), lastMemPos (normalPre cfg), false)] := by
  rw [trace_true_eq]
  conv_lhs => rw [normalPre, normalBody]
  simp only [pubsOf_append, pubsOf_setup, pubsOf_preBlock,
    pubsOf_cycleEvsFrom, pubsOf_finalBlock, pubsOf_epilogue, pubsOf_finallyNP,
    normalBody]
  simp [List.append_assoc]
  constructor <;>
    · congr 1
      simp [normalPre, normalBody, List.append_assoc]

theorem filter_cyclePubs (cfg : WaveCfg) :
    ∀ rem c, (cyclePubsFrom cfg rem c).filter (fun x => x.2.2)
      = cyclePubsFrom cfg rem c := by
  intro rem
  induction rem with
  | zero => intro c; rfl
  | succ rem ih => intro c; simp [cyclePubsFrom, ih]

theorem activePubs_trace_true (cfg : WaveCfg) (cb : Bool) :
    activePubsOf (runWaveTrace cfg (fun _ => true) none cb)
      = [(0, 0, true), (0, 0, true), (0, phaseFrac cfg, true)]
        ++ cyclePubsFrom cfg cfg.num_cycles 0
        ++ finalPubs cfg cfg.num_cycles := by
  unfold activePubsOf
  rw [pubs_trace_true]
  simp [List.filter_append, filter_cyclePubs, finalPubs]

theorem stepOk_same (cfg : WaveCfg) (n : ℕ) (p q : ℚ) (b b' : Bool)
    (h : p ≤ q) : stepOk cfg (n, p, b) (n, q, b') :=
  ⟨fun _ => h, fun hne => absurd rfl hne⟩

theorem stepOk_incr_main (cfg : WaveCfg) (n m : ℕ) (p q : ℚ) (b b' : Bool)
    (hn : n ≠ m) (hq : q = 1/2) (h1 : 1 ≤ m) (h2 : m ≤ cfg.num_cycles) :
    stepOk cfg (n, p, b) (m, q, b') :=
  ⟨fun he => absurd he hn, fun _ => Or.inl ⟨hq, h1, h2⟩⟩

theorem stepOk_incr_final (cfg : WaveCfg) (n m : ℕ) (p q : ℚ) (b b' : Bool)
    (hn : n ≠ m) (hq : q = 0) (h2 : m = cfg.num_cycles + 1) :
    stepOk cfg (n, p, b) (m, q, b') :=
  ⟨fun he => absurd he hn, fun _ => Or.inr ⟨hq, h2⟩⟩

theorem chain_finalPubs (cfg : WaveCfg) (hpf0 : 0 ≤ phaseFrac cfg)
    (hlf0 : 0 ≤ latencyFrac cfg)
    (hsum : phaseFrac cfg + 2 * latencyFrac cfg ≤ 1/2) (n : ℕ) :
    List.Chain' (stepOk cfg) (finalPubs cfg n) := by
  unfold finalPubs
  refine List.chain'_cons.mpr ⟨stepOk_same _ _ _ _ _ _ hlf0, ?_⟩
  refine List.chain'_cons.mpr ⟨stepOk_same _ _ _ _ _ _ (by linarith), ?_⟩
  refine List.chain'_cons.mpr ⟨stepOk_same _ _ _ _ _ _ (by linarith), ?_⟩
  refine List.chain'_cons.mpr ⟨stepOk_same _ _ _ _ _ _ (by linarith), ?_⟩
  exact List.chain'_singleton _

theorem chain_mid (cfg : WaveCfg) (hpf0 : 0 ≤ phaseFrac cfg)
    (hlf0 : 0 ≤ latencyFrac cfg)
    (hsum : phaseFrac cfg + 2 * latencyFrac cfg ≤ 1/2) :
    ∀ rem c, c + rem = cfg.num_cycles →
      List.Chain' (stepOk cfg)
        (cyclePubsFrom cfg rem c ++ finalPubs cfg cfg.num_cycles)
      ∧ (cyclePubsFrom cfg rem c ++ finalPubs cfg cfg.num_cycles).head?
          = some (if rem = 0 then (cfg.num_cycles + 1, 0, true)
                  else (c+1, 1/2, true)) := by
  intro rem
  induction rem with
  | zero =>
    intro c hc
    refine ⟨by simpa using chain_finalPubs cfg hpf0 hlf0 hsum cfg.num_cycles, ?_⟩
    simp [cyclePubsFrom, finalPubs]
  | succ rem ih =>
    intro c hc
    have hih := ih (c+1) (by omega)
    constructor
    · show List.Chain' _
        (([(c+1, 1/2, true), (c+1, 1/2 + latencyFrac cfg, true),
           (c+1, 1/2 + latencyFrac cfg + phaseFrac cfg, true),
           (c+1, 1/2 + 2 * latencyFrac cfg + phaseFrac cfg, true),
           (c+1, 1, true)]
          ++ cyclePubsFrom cfg rem (c+1)) ++ finalPubs cfg cfg.num_cycles)
      rw [List.append_assoc]
      refine List.Chain'.append ?_ hih.1 ?_
      · refine List.chain'_cons.mpr ⟨stepOk_same _ _ _ _ _ _ (by linarith), ?_⟩
        refine List.chain'_cons.mpr ⟨stepOk_same _ _ _ _ _ _ (by linarith), ?_⟩
        refine List.chain'_cons.mpr ⟨stepOk_same _ _ _ _ _ _ (by linarith), ?_⟩
        refine List.chain'_cons.mpr ⟨stepOk_same _ _ _ _ _ _ (by linarith), ?_⟩
        exact List.chain'_singleton _
      · intro x hx y hy
        simp only [List.getLast?_cons_cons, List.getLast?_singleton,
          Option.mem_def, Option.some.injEq] at hx
        subst hx
        rw [hih.2] at hy
        simp only [Option.mem_def, Option.some.injEq] at hy
        subst hy
        by_cases hrem : rem = 0
        · simp only [hrem, if_true]
          exact stepOk_incr_final cfg _ _ _ _ _ _ (by omega) rfl rfl
        · simp only [hrem, if_false]
          exact stepOk_incr_main cfg _ _ _ _ _ _ (by omega) rfl (by omega)
            (by omega)
    · show ((_ :: _) ++ _).head? = _
      simp [cyclePubsFrom]

theorem chain_active_pubs (cfg : WaveCfg) (cb : Bool)
    (hpf0 : 0 ≤ phaseFrac cfg) (hlf0 : 0 ≤ latencyFrac cfg)
    (hsum : phaseFrac cfg + 2 * latencyFrac cfg ≤ 1/2) :
    List.Chain' (stepOk cfg)
      (activePubsOf (runWaveTrace cfg (fun _ => true) none cb)) := by
  rw [activePubs_trace_true, List.append_assoc]
  have hmid := chain_mid cfg hpf0 hlf0 hsum cfg.num_cycles 0 (by omega)
  refine List.Chain'.append ?_ hmid.1 ?_
  · refine List.chain'_cons.mpr ⟨stepOk_same _ _ _ _ _ _ le_rfl, ?_⟩
    refine List.chain'_cons.mpr ⟨stepOk_same _ _ _ _ _ _ hpf0, ?_⟩
    exact List.chain'_singleton _
  · intro x hx y hy
    simp only [List.getLast?_cons_cons, List.getLast?_singleton,
      Option.mem_def, Option.some.injEq] at hx
    subst hx
    rw [hmid.2] at hy
    simp only [Option.mem_def, Option.some.injEq] at hy
    subst hy
    by_cases hN : cfg.num_cycles = 0
    · simp only [hN, if_true]
      exact stepOk_incr_final cfg _ _ _ _ _ _ (by omega) rfl (by omega)
    · simp only [hN, if_false]
      exact stepOk_incr_main cfg _ _ _ _ _ _ (by omega) rfl (by omega)
        (by omega)

theorem cycleLoop_pubActive (cfg : WaveCfg) (run : ℕ → Bool) :
    ∀ rem i dir c,
      ((cycleLoop cfg run rem i dir c).1.all pubActiveTrue) = true := by
  intro rem
  induction rem with
  | zero => intro i dir c; rfl
  | succ rem ih =>
    intro i dir c
    simp only [cycleLoop]
    by_cases h0 : run i
    · by_cases h1 : run (i+1)
      · by_cases h2 : run (i+2)
        · by_cases h3 : run (i+3)
          · by_cases h4 : run (i+4)
            · simp [h0, h1, h2, h3, h4, update_cycle_position,
                pubActiveTrue, ih]
            · simp [h0, h1, h2, h3, h4, update_cycle_position, pubActiveTrue]
          · simp [h0, h1, h2, h3, update_cycle_position, pubActiveTrue]
        · simp [h0, h1, h2, update_cycle_position, pubActiveTrue]
      · simp [h0, h1, update_cycle_position, pubActiveTrue]
    · simp [h0]

theorem finalHalf_pubActive (cfg : WaveCfg) (run : ℕ → Bool)
    (i : ℕ) (dir : ℤ) (n : ℕ) :
    ((finalHalf cfg run i dir n).1.all pubActiveTrue) = true := by
  simp only [finalHalf]
  by_cases h0 : run i
  · by_cases h1 : run (i+1)
    · by_cases h2 : run (i+2)
      · simp [h0, h1, h2, update_cycle_position, pubActiveTrue, stopAllEvs]
      · simp [h0, h1, h2, update_cycle_position, pubActiveTrue, stopAllEvs]
    · simp [h0, h1, update_cycle_position, pubActiveTrue, stopAllEvs]
  · simp [h0, update_cycle_position, pubActiveTrue, stopAllEvs]

theorem tryBody_pubActive (cfg : WaveCfg) (run : ℕ → Bool) :
    ((tryBody cfg run).1.all pubActiveTrue) = true := by
  simp only [tryBody]
  by_cases h0 : run 0
  · by_cases h1 : run 1
    · by_cases h2 : run (cycleLoop cfg run cfg.num_cycles 2
        (if cfg.reverse then -1 else 1) 0).2.1
      · simp [h0, h1, h2, update_cycle_position, pubActiveTrue, stopAllEvs,
          cycleLoop_pubActive, finalHalf_pubActive]
      · simp [h0, h1, h2, update_cycle_position, pubActiveTrue, stopAllEvs,
          cycleLoop_pubActive]
    · simp [h0, h1, update_cycle_position, pubActiveTrue, stopAllEvs]
  · simp [h0, update_cycle_position, pubActiveTrue, stopAllEvs]

theorem epilogue_tailOk (X : List Ev) : (epilogueEvs X).all tailOk = true := rfl

theorem finallyNP_tailOk (n : ℕ) (p : ℚ) :
    (finallyEvsNP n p).all tailOk = true := rfl

theorem pubs_true_of_all (A : List Ev) (h : A.all pubActiveTrue = true) :
    ∀ x ∈ pubsOf A, x.2.2 = true := by
  intro x hx
  unfold pubsOf at hx
  rw [List.mem_filterMap] at hx
  obtain ⟨e, he, hfe⟩ := hx
  rw [List.all_eq_true] at h
  have hp := h e he
  cases e <;> simp at hfe
  rename_i n p b
  rw [← hfe]
  simpa [pubActiveTrue] using hp

theorem pubs_false_of_tail (T : List Ev) (h : T.all tailOk = true) :
    ∀ x ∈ pubsOf T, x.2.2 = false := by
  intro x hx
  unfold pubsOf at hx
  rw [List.mem_filterMap] at hx
  obtain ⟨e, he, hfe⟩ := hx
  rw [List.all_eq_true] at h
  have hp := h e he
  cases e <;> simp at hfe
  rename_i n p b
  rw [← hfe]
  simpa [tailOk] using hp

theorem transitions_allFalse (fs : List (ℕ × ℚ × Bool))
    (h : ∀ x ∈ fs, x.2.2 = false) : transitionsToFalse fs = 0 := by
  induction fs with
  | nil => rfl
  | cons x rest ih =>
    cases rest with
    | nil => rfl
    | cons y rest' =>
      show (if x.2.2 = true ∧ y.2.2 = false then 1 else 0)
        + transitionsToFalse (y :: rest') = 0
      rw [if_neg, ih (fun z hz => h z (List.mem_cons_of_mem _ hz))]
      rintro ⟨hx, -⟩
      rw [h x (List.mem_cons_self _ _)] at hx
      exact absurd hx (by decide)

theorem transitions_one (ts fs : List (ℕ × ℚ × Bool))
    (hts : ∀ x ∈ ts, x.2.2 = true) (hfs : ∀ x ∈ fs, x.2.2 = false)
    (h1 : ts ≠ []) (h2 : fs ≠ []) :
    transitionsToFalse (ts ++ fs) = 1 := by
  induction ts with
  | nil => exact absurd rfl h1
  | cons t ts' ih =>
    cases ts' with
    | nil =>
      cases fs with
      | nil => exact absurd rfl h2
      | cons f fs' =>
        show (if t.2.2 = true ∧ f.2.2 = false then 1 else 0)
          + transitionsToFalse (f :: fs') = 1
        rw [if_pos ⟨hts t (List.mem_cons_self _ _),
            hfs f (List.mem_cons_self _ _)⟩,
          transitions_allFalse _ hfs]
    | cons t2 ts'' =>
      show (if t.2.2 = true ∧ t2.2.2 = false then 1 else 0)
        + transitionsToFalse ((t2 :: ts'') ++ fs) = 1
      rw [if_neg, ih (fun z hz => hts z (List.mem_cons_of_mem _ hz))
          (List.cons_ne_nil _ _)]
      rintro ⟨-, ht2⟩
      rw [hts t2 (List.mem_cons_of_mem _ (List.mem_cons_self _ _))] at ht2
      exact absurd ht2 (by decide)

theorem tailOk_imp_stop (e : Ev) (h : tailOk e = true) :
    isStopOrNonCmd e = true := by
  cases e <;> first | rfl | exact h

theorem stopOnly_of_all (T : List Ev) (h : T.all isStopOrNonCmd = true) :
    stopOnlyAfterFirstFalse T = true := by
  induction T with
  | nil => rfl
  | cons e rest ih =>
    rw [List.all_cons, Bool.and_eq_true] at h
    show (if pubActiveTrue e = true then stopOnlyAfterFirstFalse rest
      else rest.all isStopOrNonCmd) = true
    by_cases hp : pubActiveTrue e = true
    · rw [if_pos hp]
      exact ih h.2
    · rw [if_neg hp]
      exact h.2

theorem stopOnly_append (H T : List Ev) (hH : H.all pubActiveTrue = true)
    (hT : stopOnlyAfterFirstFalse T = true) :
    stopOnlyAfterFirstFalse (H ++ T) = true := by
  induction H with
  | nil => exact hT
  | cons e H' ih =>
    rw [List.all_cons, Bool.and_eq_true] at hH
    show (if pubActiveTrue e = true then stopOnlyAfterFirstFalse (H' ++ T)
      else (H' ++ T).all isStopOrNonCmd) = true
    rw [if_pos hH.1]
    exact ih hH.2

theorem all_take {p : Ev → Bool} (l : List Ev) (k : ℕ)
    (h : l.all p = true) : (l.take k).all p = true := by
  rw [List.all_eq_true] at *
  exact fun x hx => h x (List.take_subset k l hx)

theorem ite_cb_tailOk (hasCb : Bool) :
    (if hasCb then [Ev.logEnable false] else []).all tailOk = true := by
  cases hasCb <;> rfl

theorem trace_decomp (cfg : WaveCfg) (run : ℕ → Bool) (exn : Option ℕ)
    (hasCb : Bool) :
    ∃ H T, runWaveTrace cfg run exn hasCb = (setupEvs ++ H) ++ T
      ∧ H.all pubActiveTrue = true
      ∧ T.all tailOk = true
      ∧ pubsOf T ≠ [] := by
  have hB := tryBody_pubActive cfg run
  cases exn with
  | none =>
    by_cases he : (tryBody cfg run).2 = true
    · refine ⟨(tryBody cfg run).1,
        finallyEvsNP (lastMemNum (setupEvs ++ (tryBody cfg run).1))
          (lastMemPos (setupEvs ++ (tryBody cfg run).1)),
        ?_, hB, finallyNP_tailOk _ _, ?_⟩
      · simp only [runWaveTrace, threadEvsNoExn, he, if_true]
      · simp [pubsOf_finallyNP]
    · have he' : (tryBody cfg run).2 = false := by
        revert he; cases (tryBody cfg run).2 <;> simp
      refine ⟨(tryBody cfg run).1,
        epilogueEvs (setupEvs ++ (tryBody cfg run).1)
          ++ finallyEvsNP
            (lastMemNum (setupEvs ++ ((tryBody cfg run).1
              ++ epilogueEvs (setupEvs ++ (tryBody cfg run).1))))
            (lastMemPos (setupEvs ++ ((tryBody cfg run).1
              ++ epilogueEvs (setupEvs ++ (tryBody cfg run).1)))),
        ?_, hB, ?_, ?_⟩
      · simp only [runWaveTrace, threadEvsNoExn, he', Bool.false_eq_true,
          if_false]
        simp [List.append_assoc]
      · rw [List.all_append]
        simp [epilogue_tailOk, finallyNP_tailOk]
      · simp [pubsOf_append, pubsOf_epilogue]
  | some k =>
    by_cases he : (tryBody cfg run).2 = true
    · refine ⟨(tryBody cfg run).1.take k,
        (if hasCb then [Ev.logEnable false] else [])
          ++ finallyEvsNP
            (lastMemNum (setupEvs ++ ((tryBody cfg run).1.take k)))
            (lastMemPos (setupEvs ++ ((tryBody cfg run).1.take k))),
        ?_, all_take _ _ hB, ?_, ?_⟩
      · simp only [runWaveTrace, threadEvsNoExn, he, if_true]
        simp [List.append_assoc]
      · rw [List.all_append]
        simp [ite_cb_tailOk, finallyNP_tailOk]
      · simp [pubsOf_append, pubsOf_finallyNP]
    · have he' : (tryBody cfg run).2 = false := by
        revert he; cases (tryBody cfg run).2 <;> simp
      refine ⟨(tryBody cfg run).1.take k,
        (epilogueEvs (setupEvs ++ (tryBody cfg run).1)).take
            (k - (tryBody cfg run).1.length)
          ++ ((if hasCb then [Ev.logEnable false] else [])
            ++ finallyEvsNP
              (lastMemNum (setupEvs ++ (((tryBody cfg run).1
                ++ epilogueEvs (setupEvs ++ (tryBody cfg run).1)).take k)))
              (lastMemPos (setupEvs ++ (((tryBody cfg run).1
                ++ epilogueEvs (setupEvs ++ (tryBody cfg run).1)).take k)))),
        ?_, all_take _ _ hB, ?_, ?_⟩
      · simp only [runWaveTrace, threadEvsNoExn, he', Bool.false_eq_true,
          if_false]
        rw [List.take_append_eq_append_take]
        simp [List.append_assoc]
      · rw [List.all_append, List.all_append]
        simp [all_take _ _ (epilogue_tailOk _), ite_cb_tailOk,
          finallyNP_tailOk]
      · simp [pubsOf_append, pubsOf_finallyNP]

/-! ### Claim C1 -/

/-- C1: on every exit path of the wave thread — normal completion, any
cancellation point, or an exception raised at any position, with or
without a callback — the last `set_motor` call of the execution is
`("both", 0, 0)` and the last published cycle state has
`active = false`; both are issued by the guaranteed `finally` block
before the thread exits. -/
theorem wave_thread_cleanup (cfg : WaveCfg) (run : ℕ → Bool)
    (exn : Option ℕ) (hasCb : Bool) :
    lastCmd (runWaveTrace cfg run exn hasCb) = some (.both, 0, 0)
    ∧ ∃ n p, lastPub (runWaveTrace cfg run exn hasCb) = some (n, p, false) := by
  cases exn with
  | none => exact ⟨lastCmd_finallyNP _ _ _, _, _, lastPub_finallyNP _ _ _⟩
  | some k => exact ⟨lastCmd_finallyNP _ _ _, _, _, lastPub_finallyNP _ _ _⟩

/-! ### Claim C2 -/

/-- C2, counterexample.  The claim fails on three counts, shown at
concrete runs (num_cycles = 1, uncancelled, exception-free).
First run (period 2, phase 1/2, latency 1/4): at the first cycle-number
increment the published position is 1/2, not 0; and a `set_motor` call
(the `finally` block's stop) occurs after the published active flag has
already transitioned to false.  Second run (period 2, phase 2/5,
latency 9/20 — validated parameters, `phase < period/2`,
`latency < period/4`): the published position within cycle 1 decreases
from `1/2 + 2·latency/period + phase/period = 23/20` to 1. -/
theorem wave_cycle_claim_cex :
    ¬ List.Chain' stepClaim
        (pubsOf (runWaveTrace ⟨1, 2, 1/2, 1/4, false, 70⟩
          (fun _ => true) none false))
    ∧ noCmdAfterFirstFalse
        (runWaveTrace ⟨1, 2, 1/2, 1/4, false, 70⟩
          (fun _ => true) none false) = false
    ∧ ¬ List.Chain' stepClaim
        (pubsOf (runWaveTrace ⟨1, 2, 2/5, 9/20, false, 70⟩
          (fun _ => true) none false)) := by
  refine ⟨?_, ?_, ?_⟩
  · intro h
    rw [pubs_trace_true] at h
    simp only [cyclePubsFrom, finalPubs, List.nil_append, List.cons_append,
      List.append_nil] at h
    have h1 := (List.chain'_cons.mp h).2
    have h2 := (List.chain'_cons.mp h1).2
    have h3 := (List.chain'_cons.mp h2).1
    exact absurd (h3.2 (by decide)) (by norm_num)
  · decide
  · intro h
    rw [pubs_trace_true] at h
    simp only [cyclePubsFrom, finalPubs, List.nil_append, List.cons_append,
      List.append_nil] at h
    have h1 := (List.chain'_cons.mp h).2
    have h2 := (List.chain'_cons.mp h1).2
    have h3 := (List.chain'_cons.mp h2).2
    have h4 := (List.chain'_cons.mp h3).2
    have h5 := (List.chain'_cons.mp h4).2
    have h6 := (List.chain'_cons.mp h5).2
    have h7 := (List.chain'_cons.mp h6).1
    have := h7.1 rfl
    simp only [phaseFrac, latencyFrac] at this
    norm_num at this

/-- C2 transition part, proved for every cancellation schedule, exception
position and callback choice: the published active flag goes from true to
false exactly once per run, and after the first inactive publication the
only `set_motor` calls are the stop command `("both", 0, 0)`. -/
theorem wave_active_transition (cfg : WaveCfg) (run : ℕ → Bool)
    (exn : Option ℕ) (hasCb : Bool) :
    transitionsToFalse (pubsOf (runWaveTrace cfg run exn hasCb)) = 1
    ∧ stopOnlyAfterFirstFalse (runWaveTrace cfg run exn hasCb) = true := by
  obtain ⟨H, T, heq, hH, hT, hne⟩ := trace_decomp cfg run exn hasCb
  have hsetup : setupEvs.all pubActiveTrue = true := rfl
  have hHT : (setupEvs ++ H).all pubActiveTrue = true := by
    rw [List.all_append]
    simp [hsetup, hH]
  rw [heq]
  constructor
  · rw [pubsOf_append]
    refine transitions_one _ _ (pubs_true_of_all _ hHT)
      (pubs_false_of_tail T hT) ?_ hne
    rw [pubsOf_append, pubsOf_setup]
    simp
  · refine stopOnly_append _ _ hHT (stopOnly_of_all T ?_)
    rw [List.all_eq_true] at hT ⊢
    exact fun x hx => tailOk_imp_stop x (hT x hx)

/-- C2 (amended): (1) in an uncancelled, exception-free run with
non-negative phase and latency and `phase + 2·latency ≤ period/2`, the
active publications satisfy, at each adjacent pair: within a cycle the
position is non-decreasing, and at a cycle-number increment the position
resets to 1/2 (main-loop increments, cycle numbers 1..num_cycles) or to 0
(the final half-cycle increment, cycle number num_cycles+1) — not to 0 at
every increment as originally claimed; (2) in every run the published
active flag transitions to false exactly once, and only redundant
`("both", 0, 0)` stop commands are issued after the transition (the
original claim's "after the last actuator command" fails because the
`finally` block stops the motors once more after publishing
`active = false`). -/
theorem wave_cycle_state (cfg : WaveCfg) (cb : Bool) :
    (0 < cfg.period → 0 ≤ cfg.phase → 0 ≤ cfg.latency →
      cfg.phase + 2 * cfg.latency ≤ cfg.period / 2 →
      List.Chain' (stepOk cfg)
        (activePubsOf (runWaveTrace cfg (fun _ => true) none cb)))
    ∧ (∀ (run : ℕ → Bool) (exn : Option ℕ) (hasCb : Bool),
        transitionsToFalse (pubsOf (runWaveTrace cfg run exn hasCb)) = 1
        ∧ stopOnlyAfterFirstFalse (runWaveTrace cfg run exn hasCb) = true) := by
  constructor
  · intro hp hph hlat hcond
    have hpf0 : 0 ≤ phaseFrac cfg := div_nonneg hph hp.le
    have hlf0 : 0 ≤ latencyFrac cfg := div_nonneg hlat hp.le
    have hsum : phaseFrac cfg + 2 * latencyFrac cfg ≤ 1/2 := by
      have hne : cfg.period ≠ 0 := ne_of_gt hp
      unfold phaseFrac latencyFrac
      have h1 : cfg.phase / cfg.period + 2 * (cfg.latency / cfg.period)
          = (cfg.phase + 2 * cfg.latency) / cfg.period := by
        field_simp
      rw [h1]
      have h2 : (cfg.phase + 2 * cfg.latency) / cfg.period
          ≤ (cfg.period / 2) / cfg.period :=
        (div_le_div_iff_of_pos_right hp).mpr hcond
      refine h2.trans ?_
      have h3 : cfg.period / 2 / cfg.period = 1 / 2 := by
        rw [div_div, mul_comm, ← div_div, div_self hne]
      rw [h3]
    exact chain_active_pubs cfg cb hpf0 hlf0 hsum
  · exact fun run exn hasCb => wave_active_transition cfg run exn hasCb

/-- C2 witness: the amended theorem applied at num_cycles 3, period 2,
phase 1/2, latency 1/5 (which satisfy all the hypotheses) and at the
never-cancelled exception-free schedule. -/
theorem wave_cycle_state_witness :
    List.Chain' (stepOk ⟨3, 2, 1/2, 1/5, false, 70⟩)
      (activePubsOf (runWaveTrace ⟨3, 2, 1/2, 1/5, false, 70⟩
        (fun _ => true) none false))
    ∧ transitionsToFalse (pubsOf (runWaveTrace ⟨3, 2, 1/2, 1/5, false, 70⟩
        (fun _ => true) none false)) = 1 :=
  ⟨(wave_cycle_state ⟨3, 2, 1/2, 1/5, false, 70⟩ false).1
      (by show (0:ℚ) < 2; norm_num) (by show (0:ℚ) ≤ 1/2; norm_num)
      (by show (0:ℚ) ≤ 1/5; norm_num)
      (by show (1:ℚ)/2 + 2 * (1/5) ≤ 2/2; norm_num),
   ((wave_cycle_state ⟨3, 2, 1/2, 1/5, false, 70⟩ false).2
      (fun _ => true) none false).1⟩

/-! ### Claim C3 -/

/-- C3, counterexample: as stated the claim fails at window size `W = 0`
with an empty history.  The claim (and the spec) promise `None` there, but
`len([]) < 0` is false in Python, so the code indexes `sorted([])[0]` and
raises `IndexError` instead of returning `None`. -/
theorem median_filter_claim_cex :
    ¬ (median_filter [] 0 = .ok (medianSpec [] 0)) := by
  decide

/-- C3 (amended: window sizes `W ≥ 1`): for every window size `W ≥ 1` and
every history, `median_filter` returns `None` on an empty history, the
single most recent sample when fewer than `W` entries are available, and
otherwise the element at index `W/2` of the sorted slice of exactly the
last `W` entries — and it never raises. -/
theorem median_filter_spec (w : ℕ) (values : List ℚ) (hw : 1 ≤ w) :
    median_filter values w = .ok (medianSpec values w) := by
  by_cases hlt : values.length < w
  · have hcode : median_filter values w = .ok values.getLast? := by
      unfold median_filter
      rw [if_pos hlt]
    rw [hcode]
    unfold medianSpec
    by_cases hv : values = []
    · subst hv
      simp
    · rw [if_neg hv, if_pos hlt]
  · have hvne : values ≠ [] := by
      intro h
      subst h
      simp only [List.length_nil] at hlt
      omega
    have hw0 : w ≠ 0 := by omega
    have hlen : (pySorted (values.drop (values.length - w))).length = w := by
      rw [length_pySorted, List.length_drop]
      omega
    have hidx : w / 2 < (pySorted (values.drop (values.length - w))).length := by
      rw [hlen]
      exact Nat.div_lt_self (by omega) (by omega)
    unfold median_filter medianSpec
    rw [if_neg hlt, if_neg hvne, if_neg hlt]
    simp only [if_neg hw0]
    rw [List.get?_eq_get hidx]

/-- C3 witness: the amended theorem applied at window size 3 and history
`[3, 1, 2]`. -/
theorem median_filter_spec_witness :
    1 ≤ 3 ∧ median_filter [3, 1, 2] 3 = .ok (medianSpec [3, 1, 2] 3) :=
  ⟨by decide, median_filter_spec 3 [3, 1, 2] (by decide)⟩

/-! ### Claim C4 -/

/-- C4: with all three raw channel readings present, the derived forces
are `thrust = raw[0]`, `lift = (raw[1]+raw[2])/2`,
`moment = (raw[1]-raw[2]) * lever_arm_length`; with any reading absent,
thrust, lift and moment are all `None` (no partial derivation). -/
theorem read_sensors_forces_spec (r1 r2 r3 : Option ℚ) (L : ℚ) :
    (∀ a b c, r1 = some a → r2 = some b → r3 = some c →
      read_sensors_forces [r1, r2, r3] L =
        ⟨[r1, r2, r3], some a, some ((b + c) / 2), some ((b - c) * L)⟩)
    ∧ ((r1 = none ∨ r2 = none ∨ r3 = none) →
      read_sensors_forces [r1, r2, r3] L =
        ⟨[r1, r2, r3], none, none, none⟩) := by
  constructor
  · rintro a b c rfl rfl rfl
    rfl
  · rintro (rfl | rfl | rfl)
    · cases r2 <;> cases r3 <;> rfl
    · cases r1 <;> cases r3 <;> rfl
    · cases r1 <;> cases r2 <;> rfl

/-- C4 witness: the theorem applied at `[1, 2, 3]` with lever arm 5, and
at a frame whose first channel is missing. -/
theorem read_sensors_forces_spec_witness :
    read_sensors_forces [some 1, some 2, some 3] 5 =
      ⟨[some 1, some 2, some 3], some 1, some ((2 + 3) / 2), some ((2 - 3) * 5)⟩
    ∧ read_sensors_forces [none, some 2, some 3] 5 =
      ⟨[none, some 2, some 3], none, none, none⟩ :=
  ⟨(read_sensors_forces_spec (some 1) (some 2) (some 3) 5).1 1 2 3 rfl rfl rfl,
   (read_sensors_forces_spec none (some 2) (some 3) 5).2 (Or.inl rfl)⟩

/-! ### Claim C5 -/

/-- C5, counterexample: the claim fails on
`SensorNode.read_sensors` in `uart-data-collection.py` (one of its two
cited sources), whose moment is `(raw[1]+raw[2]) * lever_arm_length`: at
readings `[0, 1, 2]` with lever arm 1 the moment is `3` both before and
after swapping channels 2 and 3, not `3` and `-3`. -/
theorem uart_moment_not_antisymmetric :
    ¬ ((uart_read_sensors_forces [some 0, some 1, some 2] 1).moment
        = Option.map (fun x => -x)
            ((uart_read_sensors_forces [some 0, some 2, some 1] 1).moment)) := by
  show ¬ (some (((1 : ℚ) + 2) * 1)
      = Option.map (fun x => -x) (some (((2 : ℚ) + 1) * 1)))
  simp only [Option.map_some', Option.some_inj]
  norm_num

/-- C5 (amended: restricted to `data_collection_GUI.py`): the GUI
variant's moment `(raw[1]-raw[2])*L` is antisymmetric under swapping
channels 2 and 3, while the uart variant's moment `(raw[1]+raw[2])*L` is
symmetric (unchanged) under the same swap. -/
theorem moment_antisymmetry (r1 r2 r3 L : ℚ) :
    (read_sensors_forces [some r1, some r2, some r3] L).moment
      = Option.map (fun x => -x)
          ((read_sensors_forces [some r1, some r3, some r2] L).moment)
    ∧ (uart_read_sensors_forces [some r1, some r2, some r3] L).moment
      = (uart_read_sensors_forces [some r1, some r3, some r2] L).moment := by
  constructor
  · show some ((r2 - r3) * L) = Option.map (fun x => -x) (some ((r3 - r2) * L))
    simp only [Option.map_some']
    congr 1
    ring
  · show some ((r2 + r3) * L) = some ((r3 + r2) * L)
    congr 1
    ring

/-! ### Claim C6 -/

/-- C6: over any sequence of log-file operations the program performs
(initializing a log file, the logging loop's first-write initialization —
including after a filename switch — marker appends and data appends, on
any mix of filenames), each file receives the CSV header at most once,
and each file's contents never hold more than one header line.  Header
writes happen only on an empty or not-yet-existing file by construction
(`writesHeader`). -/
theorem log_header_at_most_once (ops : List (String × FileOp)) (f : String) :
    headerWrites emptyFS ops f ≤ 1
    ∧ headerCount (runOps emptyFS ops f) ≤ 1 :=
  ⟨headerWrites_le_one ops emptyFS f,
   headerCount_runOps ops emptyFS (fun g => by simp [emptyFS, headerCount]) f⟩

/-! ### Claim C7 -/

/-- C7: over any stream of messages reaching the logging loop, every
sensor frame is dequeued (consumed) whether or not logging is enabled,
and the number of data rows written equals exactly the number of frames
that arrived while logging was enabled. -/
theorem logging_rows_match_enabled_frames (g : ℚ → String)
    (evs : List LoopEvent) :
    (runLoop g initLoopState evs).consumed = evs.countP isFrameEv
    ∧ (runLoop g initLoopState evs).rows.length = evs.countP isEnabledFrameEv := by
  have h := runLoop_counts g evs initLoopState
  simpa [initLoopState] using h

/-! ### Claim C8 -/

/-- C8: every serialized data row is the comma-separated join of the
fourteen schema fields (timestamp, thrust, lift, moment, raw1, raw2,
raw3, motor1_speed, motor1_dir, motor2_speed, motor2_dir, cycle_number,
cycle_position, pattern_active) in order; every missing derived or raw
value is serialized as the literal token `NA`; and the cycle-position
field is rendered with exactly 4 digits after the decimal point. -/
theorem logEntry_schema (g : ℚ → String) (sd : SensorFrame)
    (mc : MotorStates) (ci : CycleInfo) :
    logEntry g sd mc ci = joinComma (schemaFields g sd mc ci)
    ∧ (schemaFields g sd mc ci).length = 14
    ∧ (sd.forces.thrust = none → (schemaFields g sd mc ci).get? 1 = some "NA")
    ∧ (sd.forces.lift = none → (schemaFields g sd mc ci).get? 2 = some "NA")
    ∧ (sd.forces.moment = none → (schemaFields g sd mc ci).get? 3 = some "NA")
    ∧ (∀ i, i < 3 → (sd.forces.raw_readings.get? i).join = none →
        (schemaFields g sd mc ci).get? (4 + i) = some "NA")
    ∧ (schemaFields g sd mc ci).get? 12 = some (fmt4 ci.cycle_position)
    ∧ (∀ q : ℚ, fracDigitsAfterDot (fmt4 q) = 4) := by
  refine ⟨?_, rfl, ?_, ?_, ?_, ?_, rfl, fracDigits_fmt4⟩
  · simp [logEntry, joinComma, schemaFields, String.append_assoc]
  · rintro h
    rw [show (schemaFields g sd mc ci).get? 1
        = some (optStr g sd.forces.thrust) from rfl, h]
    rfl
  · rintro h
    rw [show (schemaFields g sd mc ci).get? 2
        = some (optStr g sd.forces.lift) from rfl, h]
    rfl
  · rintro h
    rw [show (schemaFields g sd mc ci).get? 3
        = some (optStr g sd.forces.moment) from rfl, h]
    rfl
  · rintro i hi hj
    interval_cases i
    · rw [show (schemaFields g sd mc ci).get? 4
          = some (rawField g sd.forces.raw_readings 0) from rfl,
        rawField_eq_NA g _ 0 hj]
    · rw [show (schemaFields g sd mc ci).get? 5
          = some (rawField g sd.forces.raw_readings 1) from rfl,
        rawField_eq_NA g _ 1 hj]
    · rw [show (schemaFields g sd mc ci).get? 6
          = some (rawField g sd.forces.raw_readings 2) from rfl,
        rawField_eq_NA g _ 2 hj]

/-! ### Claim C9 -/

/-- C9: on a per-channel read failure (`reading = none`), that channel
records `None` for this tick only, its filter history is unchanged, the
other channels are processed exactly as if the failure had not happened,
and the tick still produces all three entries (the loop is not aborted). -/
theorem read_sensors_tick_fault_isolation (w : ℕ) (h1 h2 h3 : List ℚ)
    (r1 r2 r3 : Option ℚ) :
    ((read_sensors_tick w h1 h2 h3 r1 r2 r3).2.length = 3)
    ∧ (r1 = none →
        (read_sensors_tick w h1 h2 h3 r1 r2 r3).1.1 = h1
        ∧ (read_sensors_tick w h1 h2 h3 r1 r2 r3).2.get? 0 = some none)
    ∧ (r2 = none →
        (read_sensors_tick w h1 h2 h3 r1 r2 r3).1.2.1 = h2
        ∧ (read_sensors_tick w h1 h2 h3 r1 r2 r3).2.get? 1 = some none)
    ∧ (r3 = none →
        (read_sensors_tick w h1 h2 h3 r1 r2 r3).1.2.2 = h3
        ∧ (read_sensors_tick w h1 h2 h3 r1 r2 r3).2.get? 2 = some none)
    ∧ (∀ r1' : Option ℚ,
        (read_sensors_tick w h1 h2 h3 r1 r2 r3).1.2
          = (read_sensors_tick w h1 h2 h3 r1' r2 r3).1.2
        ∧ (read_sensors_tick w h1 h2 h3 r1 r2 r3).2.tail
          = (read_sensors_tick w h1 h2 h3 r1' r2 r3).2.tail) := by
  refine ⟨rfl, ?_, ?_, ?_, fun r1' => ⟨rfl, rfl⟩⟩
  · rintro rfl
    exact ⟨rfl, rfl⟩
  · rintro rfl
    exact ⟨rfl, rfl⟩
  · rintro rfl
    exact ⟨rfl, rfl⟩

/-- C9 witness: the theorem applied at a tick where channels 1 and 3 fail
and channel 2 reads 5. -/
theorem read_sensors_tick_fault_isolation_witness :
    (read_sensors_tick 2 [1] [2] [3] none (some 5) none).1.1 = [1]
    ∧ (read_sensors_tick 2 [1] [2] [3] none (some 5) none).2.get? 0 = some none
    ∧ (read_sensors_tick 2 [1] [2] [3] none (some 5) none).1.2.2 = [3]
    ∧ (read_sensors_tick 2 [1] [2] [3] none (some 5) none).2.get? 2 = some none :=
  ⟨((read_sensors_tick_fault_isolation 2 [1] [2] [3] none (some 5) none).2.1 rfl).1,
   ((read_sensors_tick_fault_isolation 2 [1] [2] [3] none (some 5) none).2.1 rfl).2,
   ((read_sensors_tick_fault_isolation 2 [1] [2] [3] none (some 5) none).2.2.2.1 rfl).1,
   ((read_sensors_tick_fault_isolation 2 [1] [2] [3] none (some 5) none).2.2.2.1 rfl).2⟩

/-! ### Claim C10 -/

/-- C10: in digital (non-PWM) control mode every `set_motor` call records
and publishes intensity 100 for the selected motors regardless of the
`speed` argument — including stop commands (`direction = 0`), whose pin
drive is (LOW, LOW), i.e. the motor is braked while the logged state says
speed 100. -/
theorem set_motor_digital_records_100 (st : MotorStates) (sel : MotorSel)
    (direction : ℤ) (speed : ℕ) :
    (set_motor false st sel direction speed).2
      = (set_motor false st sel direction speed).1
    ∧ (sel ≠ .motor2 →
        (set_motor false st sel direction speed).1.motor1 = ⟨100, direction⟩)
    ∧ (sel ≠ .motor1 →
        (set_motor false st sel direction speed).1.motor2 = ⟨100, direction⟩)
    ∧ digitalPinLevels 0 = (.low, .low) := by
  refine ⟨rfl, ?_, ?_, rfl⟩ <;> cases sel <;> simp [set_motor]

/-- C10 witness: a stop command `set_motor("both", 0, 0)` in digital mode
records speed 100 and direction 0 for both motors. -/
theorem set_motor_digital_records_100_witness :
    (set_motor false ⟨⟨0, 0⟩, ⟨0, 0⟩⟩ .both 0 0).1.motor1 = ⟨100, 0⟩
    ∧ (set_motor false ⟨⟨0, 0⟩, ⟨0, 0⟩⟩ .both 0 0).1.motor2 = ⟨100, 0⟩ :=
  ⟨(set_motor_digital_records_100 ⟨⟨0, 0⟩, ⟨0, 0⟩⟩ .both 0 0).2.1 (by simp),
   (set_motor_digital_records_100 ⟨⟨0, 0⟩, ⟨0, 0⟩⟩ .both 0 0).2.2.1 (by simp)⟩

end Manta
